import Mathlib

/-!
Verification of the digit-sum script (`src/digit_sum.py`).

The program defines one function, `digit_sum`, that sums the base-10 digits
of an integer by repeated modulo/division, then a top-level script that reads
an integer from standard input, applies `digit_sum`, and prints the result.

Python integers are signed and unbounded, so the function is embedded over
`Int`; Python's `%` and `//` are flooring modulo and division, which are
`Int.fmod` and `Int.fdiv`.
-/

/-- The loop of `digit_sum`, with the accumulator `sum` made explicit:
`while number > 0: digit = number % 10; sum += digit; number = number // 10`. -/
def digitSumGo (number sum : Int) : Int :=
  if h : number > 0 then
    digitSumGo (number.fdiv 10) (sum + number.fmod 10)
  else
    sum
termination_by number.toNat
decreasing_by
  rcases Int.eq_ofNat_of_zero_le h.le with ⟨m, rfl⟩
  have hm0 : 0 < m := by exact_mod_cast h
  have hfd : ((m : Int)).fdiv 10 = ((m / 10 : Nat) : Int) := (Int.ofNat_fdiv m 10).symm
  rw [hfd, Int.toNat_ofNat, Int.toNat_ofNat]
  exact Nat.div_lt_self hm0 (by norm_num)

/-- Python's `def digit_sum(number)` from `src/digit_sum.py`: `sum = 0`, run
the loop, `return sum`. -/
def digit_sum (number : Int) : Int :=
  digitSumGo number 0

/-- Step-indexed (fuel) version of the `digit_sum` loop, used to reason about
termination and about individual runs: `none` means the fuel ran out before
the loop condition `number > 0` became false. -/
def digitSumFuel : Nat → Int → Int → Option Int
  | 0, number, s => if number > 0 then none else some s
  | fuel + 1, number, s =>
    if number > 0 then digitSumFuel fuel (number.fdiv 10) (s + number.fmod 10)
    else some s

/-- Modelled from the spec: the decimal text representation of a non-negative
integer (Python `str(n)`), given as the list of character codes of its digits,
most significant first.  The conversion itself is a language built-in that is
not part of `src/`. -/
def decimalTextCodes (n : Nat) : List Nat :=
  if n = 0 then [48] else ((Nat.digits 10 n).map (fun d => d + 48)).reverse

/-- Modelled from the spec: the numeric value of a decimal digit character,
given its character code (the code of the character zero is 48). -/
def charNumericValue (code : Nat) : Nat :=
  code - 48

/-- Modelled from the spec: parse a run of decimal digit characters as a
natural number; any other character is a parse failure. -/
def parseDigitsGo : List Char → Nat → Option Nat
  | [], acc => some acc
  | c :: cs, acc =>
    if c.isDigit then parseDigitsGo cs (10 * acc + (c.toNat - 48)) else none

/-- Modelled from the spec: parse a nonempty digit string. -/
def parseDigits : List Char → Option Nat
  | [] => none
  | c :: cs => parseDigitsGo (c :: cs) 0

/-- Modelled from the spec: Python's `int(text)` on one line of input — an
optionally signed base-10 integer literal; anything else raises the
input-format error, modelled as `none`.  `int` is a language built-in that is
not part of `src/`. -/
def parseInt (s : String) : Option Int :=
  match s.toList with
  | '-' :: rest => (parseDigits rest).map (fun m => -(m : Int))
  | '+' :: rest => (parseDigits rest).map (fun m => (m : Int))
  | cs => (parseDigits cs).map (fun m => (m : Int))

/-- Observable outcome of one run of the script: the exit status, the lines
written to standard output by `print` (the interactive prompt of `input` is
not a printed line), and the error message reported on a parse failure. -/
structure ProgResult where
  exitCode : Nat
  outputLines : List String
  errMsg : Option String
  deriving Repr, DecidableEq

/-- The top level of `src/digit_sum.py`:
`num = int(input(...)); result = digit_sum(num)`, then
`print("Sum of digits in the number:", result)`.
A parse failure terminates the run with an error report, a non-zero status
and no output line (Python propagates the `ValueError` raised by `int`). -/
def runProgram (input : String) : ProgResult :=
  match parseInt input with
  | none =>
    ProgResult.mk 1 [] (some "invalid literal for int() with base 10")
  | some num =>
    let result := digit_sum num
    ProgResult.mk 0 ["Sum of digits in the number: " ++ toString result] none

theorem digitSumGo_of_pos {number : Int} (h : number > 0) (s : Int) :
    digitSumGo number s = digitSumGo (number.fdiv 10) (s + number.fmod 10) := by
  rw [digitSumGo]
  simp [h]

theorem digitSumGo_of_nonpos {number : Int} (h : ¬ number > 0) (s : Int) :
    digitSumGo number s = s := by
  rw [digitSumGo]
  simp [h]

theorem fdivTen_toNat_lt {n : Int} (h : 0 < n) : (n.fdiv 10).toNat < n.toNat := by
  rcases Int.eq_ofNat_of_zero_le h.le with ⟨m, rfl⟩
  have hm0 : 0 < m := by exact_mod_cast h
  have hfd : ((m : Int)).fdiv 10 = ((m / 10 : Nat) : Int) := (Int.ofNat_fdiv m 10).symm
  rw [hfd, Int.toNat_ofNat, Int.toNat_ofNat]
  exact Nat.div_lt_self hm0 (by norm_num)

theorem digitSumFuel_sound :
    ∀ (fuel : Nat) (n s r : Int), digitSumFuel fuel n s = some r → r = digitSumGo n s := by
  intro fuel
  induction fuel with
  | zero =>
    intro n s r hr
    by_cases h : n > 0
    · simp [digitSumFuel, h] at hr
    · simp [digitSumFuel, h] at hr
      rw [digitSumGo_of_nonpos h, hr]
  | succ fuel ih =>
    intro n s r hr
    by_cases h : n > 0
    · simp only [digitSumFuel, if_pos h] at hr
      rw [digitSumGo_of_pos h]
      exact ih _ _ _ hr
    · simp only [digitSumFuel, if_neg h, Option.some.injEq] at hr
      rw [digitSumGo_of_nonpos h, hr]

theorem digitSumFuel_complete :
    ∀ (fuel : Nat) (n s : Int), n.toNat < fuel →
      digitSumFuel fuel n s = some (digitSumGo n s) := by
  intro fuel
  induction fuel with
  | zero => intro n s hn; exact absurd hn (Nat.not_lt_zero _)
  | succ fuel ih =>
    intro n s hn
    by_cases h : n > 0
    · have hlt : (n.fdiv 10).toNat < fuel :=
        Nat.lt_of_lt_of_le (fdivTen_toNat_lt h) (Nat.le_of_lt_succ hn)
      simp only [digitSumFuel, if_pos h]
      rw [ih _ _ hlt, digitSumGo_of_pos h]
    · simp only [digitSumFuel, if_neg h]
      rw [digitSumGo_of_nonpos h]

theorem digitSumGo_acc_aux :
    ∀ (k : Nat) (n : Int), n.toNat ≤ k → ∀ s, digitSumGo n s = digitSumGo n 0 + s := by
  intro k
  induction k with
  | zero =>
    intro n hn s
    have h : ¬ n > 0 := by
      intro h
      have := fdivTen_toNat_lt h
      omega
    rw [digitSumGo_of_nonpos h, digitSumGo_of_nonpos h]
    omega
  | succ k ih =>
    intro n hn s
    by_cases h : n > 0
    · have hle : (n.fdiv 10).toNat ≤ k :=
        Nat.le_of_lt_succ (Nat.lt_of_lt_of_le (fdivTen_toNat_lt h) hn)
      rw [digitSumGo_of_pos h, digitSumGo_of_pos h,
        ih _ hle (s + n.fmod 10), ih _ hle (0 + n.fmod 10)]
      omega
    · rw [digitSumGo_of_nonpos h, digitSumGo_of_nonpos h]
      omega

theorem digitSumGo_acc (n s : Int) : digitSumGo n s = digit_sum n + s :=
  digitSumGo_acc_aux n.toNat n le_rfl s

theorem digit_sum_of_nonpos {n : Int} (h : n ≤ 0) : digit_sum n = 0 :=
  digitSumGo_of_nonpos (by omega) 0

theorem digit_sum_rec {n : Int} (h : 0 < n) :
    digit_sum n = digit_sum (n.fdiv 10) + n.fmod 10 := by
  have h1 : digit_sum n = digitSumGo (n.fdiv 10) (0 + n.fmod 10) := digitSumGo_of_pos h 0
  rw [h1, digitSumGo_acc]
  omega

theorem digit_sum_eval {n r : Int} (h : digitSumFuel (n.toNat + 1) n 0 = some r) :
    digit_sum n = r := by
  have h2 := digitSumFuel_complete (n.toNat + 1) n 0 (Nat.lt_succ_self _)
  rw [h] at h2
  exact (Option.some.inj h2).symm

theorem cast_fdiv (m : Nat) : ((m : Int)).fdiv 10 = ((m / 10 : Nat) : Int) :=
  (Int.ofNat_fdiv m 10).symm

theorem cast_fmod (m : Nat) : ((m : Int)).fmod 10 = ((m % 10 : Nat) : Int) :=
  (Int.ofNat_fmod m 10).symm

theorem digit_sum_natCast : ∀ m : Nat, digit_sum (m : Int) = ((Nat.digits 10 m).sum : Int) := by
  intro m
  induction m using Nat.strong_induction_on with
  | _ m ih =>
    rcases Nat.eq_zero_or_pos m with hm | hm
    · subst hm
      simp [digit_sum_of_nonpos le_rfl]
    · have hpos : (0 : Int) < (m : Int) := by exact_mod_cast hm
      rw [digit_sum_rec hpos, cast_fdiv, cast_fmod,
        ih (m / 10) (Nat.div_lt_self hm (by norm_num)),
        Nat.digits_def' (by norm_num : (1:Nat) < 10) hm, List.sum_cons]
      push_cast
      ring

theorem sum_digits_le : ∀ m : Nat, (Nat.digits 10 m).sum ≤ m := by
  intro m
  induction m using Nat.strong_induction_on with
  | _ m ih =>
    rcases Nat.eq_zero_or_pos m with hm | hm
    · subst hm; simp
    · have ih' := ih (m / 10) (Nat.div_lt_self hm (by norm_num))
      rw [Nat.digits_def' (by norm_num : (1:Nat) < 10) hm, List.sum_cons]
      omega

theorem sum_digits_lt {m : Nat} (h : 10 ≤ m) : (Nat.digits 10 m).sum < m := by
  have h10 : (Nat.digits 10 (m / 10)).sum ≤ m / 10 := sum_digits_le (m / 10)
  rw [Nat.digits_def' (by norm_num : (1:Nat) < 10) (by omega), List.sum_cons]
  omega

theorem sum_digits_of_lt_ten {m : Nat} (h : m < 10) : (Nat.digits 10 m).sum = m := by
  rcases Nat.eq_zero_or_pos m with hm | hm
  · subst hm; simp
  · rw [Nat.digits_of_lt 10 m (by omega) h, List.sum_cons, List.sum_nil]
    omega

theorem digit_sum_tenfold (a b : Nat) (hb : b < 10) :
    digit_sum ((10 * a + b : Nat) : Int) = digit_sum (a : Int) + (b : Int) := by
  rw [digit_sum_natCast, digit_sum_natCast]
  rcases Nat.eq_zero_or_pos (10 * a + b) with h0 | hpos
  · have ha : a = 0 := by omega
    have hb0 : b = 0 := by omega
    subst ha; subst hb0; simp
  · rw [Nat.digits_def' (by norm_num : (1:Nat) < 10) hpos]
    have h1 : (10 * a + b) % 10 = b := by omega
    have h2 : (10 * a + b) / 10 = a := by omega
    rw [h1, h2, List.sum_cons]
    push_cast
    ring

theorem textCodes_sum (n : Nat) :
    ((decimalTextCodes n).map charNumericValue).sum = (Nat.digits 10 n).sum := by
  unfold decimalTextCodes
  by_cases h : n = 0
  · subst h; simp [charNumericValue]
  · rw [if_neg h, List.map_reverse, List.sum_reverse, List.map_map]
    congr 1
    have hid : (charNumericValue ∘ fun d => d + 48) = id := by
      funext d
      simp [charNumericValue]
    rw [hid, List.map_id]

theorem runProgram_of_parse {input : String} {n : Int} (h : parseInt input = some n) :
    runProgram input =
      ProgResult.mk 0 ["Sum of digits in the number: " ++ toString (digit_sum n)] none := by
  simp [runProgram, h]

theorem runProgram_of_fail {input : String} (h : parseInt input = none) :
    runProgram input = ProgResult.mk 1 [] (some "invalid literal for int() with base 10") := by
  simp [runProgram, h]

/-- C1: for every non-negative integer `n`, `digit_sum n` is the sum of the
base-10 digits of `n`, and it also equals the sum of the numeric values of
the characters of the decimal text representation of `n`. -/
theorem digit_sum_is_digit_sum_c1 (n : Int) (hn : 0 ≤ n) :
    digit_sum n = ((Nat.digits 10 n.toNat).sum : Int) ∧
    digit_sum n = (((decimalTextCodes n.toNat).map charNumericValue).sum : Int) := by
  rcases Int.eq_ofNat_of_zero_le hn with ⟨m, rfl⟩
  rw [Int.toNat_ofNat]
  refine ⟨digit_sum_natCast m, ?_⟩
  rw [digit_sum_natCast m, textCodes_sum]

/-- Witness for C1 at `n = 123`. -/
theorem digit_sum_is_digit_sum_c1_witness :
    (0 : Int) ≤ 123 ∧
    (digit_sum 123 = ((Nat.digits 10 (123 : Int).toNat).sum : Int) ∧
     digit_sum 123 = (((decimalTextCodes (123 : Int).toNat).map charNumericValue).sum : Int)) :=
  ⟨by decide, digit_sum_is_digit_sum_c1 123 (by decide)⟩

/-- C2: `digit_sum` terminates on every integer input — the fuel-indexed
version of the loop, given `n.toNat + 1` steps, finishes (returns `some`)
and returns exactly `digit_sum n`; the fuel suffices because each iteration
replaces the remaining value by its flooring quotient by 10, which strictly
decreases the measure `Int.toNat` until the condition `number > 0` fails. -/
theorem digit_sum_terminates_c2 (n : Int) :
    digitSumFuel (n.toNat + 1) n 0 = some (digit_sum n) :=
  digitSumFuel_complete (n.toNat + 1) n 0 (Nat.lt_succ_self _)

/-- C3: the concrete values listed by the spec, and for input 0 the loop body
never executes — the loop returns the accumulator unchanged. -/
theorem digit_sum_values_c3 :
    digit_sum 0 = 0 ∧ (∀ s : Int, digitSumGo 0 s = s) ∧ digit_sum 5 = 5 ∧
    digit_sum 123 = 6 ∧ digit_sum 999 = 27 ∧ digit_sum 1000 = 1 :=
  ⟨digit_sum_eval (by decide), fun s => digitSumGo_of_nonpos (by norm_num) s,
    digit_sum_eval (by decide), digit_sum_eval (by decide), digit_sum_eval (by decide),
    digit_sum_eval (by decide)⟩

/-- C4: for every negative integer `n`, `digit_sum n = 0` — the loop
condition is false immediately and the initial accumulator is returned. -/
theorem digit_sum_neg_c4 (n : Int) (h : n < 0) : digit_sum n = 0 :=
  digit_sum_of_nonpos h.le

/-- Witness for C4 at `n = -5`. -/
theorem digit_sum_neg_c4_witness : (-5 : Int) < 0 ∧ digit_sum (-5) = 0 :=
  ⟨by decide, digit_sum_neg_c4 (-5) (by decide)⟩

/-- C5: on input text `"123"` the program exits with status 0 and writes the
single output line `"Sum of digits in the number: 6"`; and for every input
that parses as an integer `n`, the output is exactly one line of that form
with the decimal rendering of `digit_sum n` as the result. -/
theorem run_program_c5 :
    runProgram "123" = ProgResult.mk 0 ["Sum of digits in the number: 6"] none ∧
    ∀ (input : String) (n : Int), parseInt input = some n →
      runProgram input =
        ProgResult.mk 0 ["Sum of digits in the number: " ++ toString (digit_sum n)] none := by
  constructor
  · rw [runProgram_of_parse (show parseInt "123" = some 123 by decide),
      digit_sum_eval (show digitSumFuel ((123 : Int).toNat + 1) 123 0 = some 6 by decide)]
    decide
  · intro input n h
    exact runProgram_of_parse h

/-- Witness for C5 at input `"45"`. -/
theorem run_program_c5_witness :
    parseInt "45" = some 45 ∧
    runProgram "45" =
      ProgResult.mk 0 ["Sum of digits in the number: " ++ toString (digit_sum 45)] none :=
  ⟨by decide, run_program_c5.2 "45" 45 (by decide)⟩

/-- C6: on unparsable input such as `"abc"` the program reports an
input-format error, exits with a non-zero status, and writes no digit-sum
output line; `digit_sum` is never invoked on that path. -/
theorem run_program_error_c6 :
    runProgram "abc" = ProgResult.mk 1 [] (some "invalid literal for int() with base 10") ∧
    ∀ input : String, parseInt input = none →
      (runProgram input).exitCode ≠ 0 ∧ (runProgram input).outputLines = [] ∧
      (runProgram input).errMsg ≠ none := by
  constructor
  · exact runProgram_of_fail (by decide)
  · intro input h
    rw [runProgram_of_fail h]
    exact ⟨by decide, rfl, by decide⟩

/-- Witness for C6 at input `"12x"`. -/
theorem run_program_error_c6_witness :
    parseInt "12x" = none ∧
    ((runProgram "12x").exitCode ≠ 0 ∧ (runProgram "12x").outputLines = [] ∧
     (runProgram "12x").errMsg ≠ none) :=
  ⟨by decide, run_program_error_c6.2 "12x" (by decide)⟩

/-- C7: `digit_sum` is not monotone — `19 < 20` but
`digit_sum 19 = 10 > 2 = digit_sum 20`. -/
theorem digit_sum_not_monotone_c7 :
    (19 : Int) < 20 ∧ digit_sum 19 = 10 ∧ digit_sum 20 = 2 ∧
    digit_sum 20 < digit_sum 19 ∧
    ¬ (∀ m n : Int, 0 ≤ m → m ≤ n → digit_sum m ≤ digit_sum n) := by
  have h19 : digit_sum 19 = 10 := digit_sum_eval (by decide)
  have h20 : digit_sum 20 = 2 := digit_sum_eval (by decide)
  refine ⟨by norm_num, h19, h20, by rw [h19, h20]; norm_num, ?_⟩
  intro hmono
  have hc := hmono 19 20 (by norm_num) (by norm_num)
  rw [h19, h20] at hc
  norm_num at hc

/-- C8: the computation is deterministic and depends only on its argument —
any two terminating runs of the loop on the same input (with any fuel
budgets) produce the same result, and that result is `digit_sum n`. -/
theorem digit_sum_deterministic_c8 (n : Int) (fuelA fuelB : Nat) (rA rB : Int)
    (hA : digitSumFuel fuelA n 0 = some rA) (hB : digitSumFuel fuelB n 0 = some rB) :
    rA = rB ∧ rA = digit_sum n := by
  have eA := digitSumFuel_sound fuelA n 0 rA hA
  have eB := digitSumFuel_sound fuelB n 0 rB hB
  exact ⟨eA.trans eB.symm, eA⟩

/-- Witness for C8: two runs on input 123 with different fuel budgets. -/
theorem digit_sum_deterministic_c8_witness :
    digitSumFuel 4 123 0 = some 6 ∧ digitSumFuel 200 123 0 = some 6 ∧
    ((6 : Int) = 6 ∧ (6 : Int) = digit_sum 123) :=
  ⟨by decide, by decide, digit_sum_deterministic_c8 123 4 200 6 6 (by decide) (by decide)⟩

/-- C9: decimal homomorphism — for non-negative `n` and digit `d` in `[0, 9]`,
`digit_sum (10 * n + d) = digit_sum n + d`; and on one-digit inputs (such as
`d` itself) `digit_sum` is the identity. -/
theorem digit_sum_homomorphism_c9 (n d : Int) (hn : 0 ≤ n) (hd0 : 0 ≤ d) (hd9 : d ≤ 9) :
    digit_sum (10 * n + d) = digit_sum n + d ∧ digit_sum d = d := by
  rcases Int.eq_ofNat_of_zero_le hn with ⟨a, rfl⟩
  rcases Int.eq_ofNat_of_zero_le hd0 with ⟨b, rfl⟩
  have hb : b < 10 := by exact_mod_cast Int.lt_add_one_iff.mpr hd9
  constructor
  · have hcast : (10 : Int) * (a : Int) + (b : Int) = ((10 * a + b : Nat) : Int) := by
      push_cast
      ring
    rw [hcast, digit_sum_tenfold a b hb]
  · rw [digit_sum_natCast b, sum_digits_of_lt_ten hb]

/-- Witness for C9 at `n = 12`, `d = 3`. -/
theorem digit_sum_homomorphism_c9_witness :
    (0 : Int) ≤ 12 ∧ (0 : Int) ≤ 3 ∧ (3 : Int) ≤ 9 ∧
    (digit_sum (10 * 12 + 3) = digit_sum 12 + 3 ∧ digit_sum 3 = 3) :=
  ⟨by decide, by decide, by decide,
    digit_sum_homomorphism_c9 12 3 (by decide) (by decide) (by decide)⟩

/-- C10: for every non-negative `n`, the result is non-negative,
`digit_sum n ≤ n`, and equality holds exactly when `n ≤ 9`. -/
theorem digit_sum_le_self_c10 (n : Int) (hn : 0 ≤ n) :
    0 ≤ digit_sum n ∧ digit_sum n ≤ n ∧ (digit_sum n = n ↔ n ≤ 9) := by
  rcases Int.eq_ofNat_of_zero_le hn with ⟨m, rfl⟩
  rw [digit_sum_natCast]
  have hle := sum_digits_le m
  refine ⟨by exact_mod_cast Nat.zero_le _, by exact_mod_cast hle, ?_, ?_⟩
  · intro heq
    have heqN : (Nat.digits 10 m).sum = m := by exact_mod_cast heq
    by_contra hgt
    have hm : 10 ≤ m := by
      have : (9 : Int) < (m : Int) := lt_of_not_le hgt
      exact_mod_cast Int.add_one_le_iff.mpr this
    have := sum_digits_lt hm
    omega
  · intro h9
    have hm : m < 10 := by
      have : (m : Int) < 10 := by omega
      exact_mod_cast this
    exact_mod_cast congrArg (fun k : Nat => (k : Int)) (sum_digits_of_lt_ten hm)

/-- Witness for C10 at `n = 7`. -/
theorem digit_sum_le_self_c10_witness :
    (0 : Int) ≤ 7 ∧
    (0 ≤ digit_sum 7 ∧ digit_sum 7 ≤ 7 ∧ (digit_sum 7 = 7 ↔ (7 : Int) ≤ 9)) :=
  ⟨by decide, digit_sum_le_self_c10 7 (by decide)⟩
